import Mathlib

/-!
# Verification of the booktest row-clustering / word-extraction / search pipeline

Shallow embedding of the algorithmic core of the repository:

* `src/public/indexer.js` — class `PDFIndexer`: row clustering
  (`groupTextItemsByRows`), word extraction (`processRow`, `tokenizeText`,
  `isSentenceEnd`, `calculateBoundingBox`), orchestration (`indexPDF`,
  `processPage`) and configuration (`setCustomTolerance`).
* `src/unnamed/part_000` — the legacy `PDFIndexer` with the older
  `groupTextItemsByRows`.
* `src/public/search.js` — class `PDFSearch`: `buildSearchIndex` and `search`.
* `src/public/main.js` — `applyManualRowChanges` (manual row boundaries).

Numbers (JS doubles) are modelled as `ℚ`; text items carry their
viewport-projected coordinates directly, abstracting the external
`viewport.convertToViewportPoint` calls (the Geometry Projector boundary).
JavaScript `Array.prototype.sort`, which is required by ECMAScript to be
stable (and hence has a unique result for a consistent comparator), is
modelled by the stable `List.insertionSort` with each comparator translated
to the relation "comparator(a, b) ≤ 0".
-/

/-- A positioned text fragment of one page, after viewport projection:
`str`, `width`, `height` come from the PDF.js text item, `x` and `y` are the
projected coordinates that `groupTextItemsByRows` computes from
`item.transform` via `viewport.convertToViewportPoint`. -/
structure Item where
  str : String
  x : ℚ
  y : ℚ
  width : ℚ
  height : ℚ
  deriving Repr, DecidableEq

/-- A word record as produced by `processRow` and pushed onto `this.words`. -/
structure Word where
  word : String
  page : Nat
  row : Nat
  index : Nat
  bbox : List ℚ
  sentence : String
  deriving Repr, DecidableEq

/-- The character class of the JavaScript regexp `\s` (used by
`text.split(/\s+/)`) and of `String.prototype.trim`. -/
def jsSpace (c : Char) : Bool :=
  c = ' ' || c = '\t' || c = '\n' || c = '\r' || c.val = 0x0b || c.val = 0x0c ||
  c.val = 0xa0 || c.val = 0x1680 || (0x2000 ≤ c.val && c.val ≤ 0x200a) ||
  c.val = 0x2028 || c.val = 0x2029 || c.val = 0x202f || c.val = 0x205f ||
  c.val = 0x3000 || c.val = 0xfeff

/-- Splitting a character list on runs of whitespace; pieces are accumulated
in `cur` (reversed).  `text.split(/\s+/)` yields at most one empty piece (at
the start, when the text begins with whitespace), and `tokenizeText` filters
empty pieces out, so dropping them here is exact. -/
def splitWsAux : List Char → List Char → List String
  | [], cur => if cur = [] then [] else [String.mk cur.reverse]
  | c :: cs, cur =>
    if jsSpace c then
      if cur = [] then splitWsAux cs [] else String.mk cur.reverse :: splitWsAux cs []
    else splitWsAux cs (c :: cur)

/-- `PDFIndexer.tokenizeText` (src/public/indexer.js):
`text.split(/\s+/).filter(word => word.length > 0)`. -/
def tokenizeText (text : String) : List String :=
  splitWsAux text.toList []

/-- `String.prototype.trim` over the `jsSpace` character class. -/
def jsTrim (s : String) : String :=
  String.mk (((s.toList.dropWhile jsSpace).reverse.dropWhile jsSpace).reverse)

/-- `PDFIndexer.isSentenceEnd` (src/public/indexer.js): `/[.!?]$/.test(word)`. -/
def isSentenceEnd (word : String) : Bool :=
  match word.toList.getLast? with
  | some c => c = '.' || c = '!' || c = '?'
  | none => false

/-- First index of `needle` in `hay` (as character lists), or `none`. -/
def indexOfAux : List Char → List Char → Nat → Option Nat
  | [], needle, i => if needle = [] then some i else none
  | c :: cs, needle, i =>
    if needle.isPrefixOf (c :: cs) then some i else indexOfAux cs needle (i + 1)

/-- `String.prototype.indexOf`: first occurrence of `word` in `s`, `-1` if
absent. -/
def jsIndexOf (s word : String) : Int :=
  match indexOfAux s.toList word.toList 0 with
  | some i => (i : Int)
  | none => -1

/-- `PDFIndexer.calculateBoundingBox` (src/public/indexer.js).  The item
already carries its projected `x`,`y` (the two `convertToViewportPoint`
calls).  `charWidth = width / str.length` uses exact division in `ℚ`; the
word is always a token of `str`, so `str` is non-empty at every call site. -/
def calculateBoundingBox (textItem : Item) (word : String) : List ℚ :=
  let x := textItem.x
  let y := textItem.y
  let fullText := textItem.str
  let wordIndex : Int := jsIndexOf fullText word
  let charWidth : ℚ := textItem.width / (fullText.length : ℚ)
  let wordWidth : ℚ := (word.length : ℚ) * charWidth
  let wordX : ℚ := x + (wordIndex : ℚ) * charWidth
  [wordX, y - textItem.height, wordX + wordWidth, y]

/-- `Math.abs`. -/
def jsAbs (q : ℚ) : ℚ := if q ≤ 0 then -q else q

/-- `Math.max` (two arguments, no NaN). -/
def jsMax (a b : ℚ) : ℚ := if a ≤ b then b else a

/-- `Math.min` (two arguments, no NaN). -/
def jsMin (a b : ℚ) : ℚ := if a ≤ b then a else b

/-- `row.some`-scan of `groupTextItemsByRows`: does the item lie within
`tolerance` of the row's anchor `row[0].y`?  (`row[0]` is the row's
first-assigned item, appended items go to the back.) -/
def matchesRow (tolerance : ℚ) (item : Item) (row : List Item) : Bool :=
  match row with
  | [] => false
  | anchor :: _ => decide (jsAbs (item.y - anchor.y) ≤ tolerance)

/-- One step of the clustering loop of `groupTextItemsByRows`: scan the
existing rows in creation order, append the item to the first row within
`tolerance` of the row anchor, else start a new row at the end. -/
def addItem (tolerance : ℚ) (item : Item) : List (List Item) → List (List Item)
  | [] => [[item]]
  | r :: rs =>
    if matchesRow tolerance item r then (r ++ [item]) :: rs
    else r :: addItem tolerance item rs

/-- The `for (const item of itemsWithCoords)` clustering loop of
`groupTextItemsByRows`, started from no rows. -/
def assignRows (tolerance : ℚ) (items : List Item) : List (List Item) :=
  items.foldl (fun rows item => addItem tolerance item rows) []

/-- `itemsWithCoords.sort((a, b) => a.y - b.y)`: ascending-Y sort.
ECMAScript requires `Array.prototype.sort` to be stable, and a stable sort
for a consistent comparator has a unique result, so the stable
`List.insertionSort` is an exact model (and is kernel-computable). -/
def sortByY (items : List Item) : List Item :=
  items.insertionSort (fun a b => a.y ≤ b.y)

/-- `row.sort((a, b) => a.x - b.x)`: stable ascending-X sort within a row. -/
def sortRowByX (row : List Item) : List Item :=
  row.insertionSort (fun a b => a.x ≤ b.x)

/-- The tolerance picked by `groupTextItemsByRows`
(src/public/indexer.js, lines 117-125): the mean positive item height
(`12` fallback), then
`customTolerance !== null ? customTolerance : Math.max(1, avgHeight * 0.1)`. -/
def effectiveTolerance (customTolerance : Option ℚ) (items : List Item) : ℚ :=
  let heights := (items.map Item.height).filter (fun h => decide (0 < h))
  let avgHeight : ℚ :=
    if 0 < heights.length then heights.sum / (heights.length : ℚ) else 12
  match customTolerance with
  | some t => t
  | none => jsMax 1 (avgHeight * (1 / 10))

/-- `PDFIndexer.groupTextItemsByRows` (src/public/indexer.js, lines 97-179):
sort the projected items by ascending Y, compute the tolerance, run the
first-fit clustering loop, then sort each row by ascending X.
(The console logging, `lastDetectedRows` bookkeeping and the non-fatal
over-merged diagnostic do not affect the returned rows.) -/
def groupTextItemsByRows (customTolerance : Option ℚ) (textItems : List Item) :
    List (List Item) :=
  let itemsWithCoords := sortByY textItems
  let tolerance := effectiveTolerance customTolerance itemsWithCoords
  let rows := assignRows tolerance itemsWithCoords
  rows.map sortRowByX

/-- A collected row word of `processRow`, first pass: the (trimmed) token
and its bounding box. -/
structure RowWord where
  word : String
  bbox : List ℚ
  deriving Repr, DecidableEq

/-- First pass of `PDFIndexer.processRow`: collect all tokens of all items
of the row, in item order then token order, keeping tokens with non-empty
trim, with their bounding boxes. -/
def collectRowWords (row : List Item) : List RowWord :=
  row.flatMap (fun item =>
    (tokenizeText item.str).filterMap (fun word =>
      if jsTrim word ≠ "" then
        some { word := jsTrim word, bbox := calculateBoundingBox item word }
      else none))

/-- Second pass of `PDFIndexer.processRow` (the indexed `forEach`): emit a
`Word` per collected row word, threading the sentence buffer; `pos` is the
0-based `forEach` position, so `index := pos + 1`.  The word's `sentence` is
the buffer joined with spaces including the word itself; the buffer resets
after a sentence-ending word. -/
def emitRow (buf : List String) (pageNum rowIndex pos : Nat) :
    List RowWord → List Word × List String
  | [] => ([], buf)
  | wd :: rest =>
    let buf2 := buf ++ [wd.word]
    let w : Word :=
      { word := wd.word, page := pageNum, row := rowIndex, index := pos + 1,
        bbox := wd.bbox, sentence := String.intercalate " " buf2 }
    let buf3 := if isSentenceEnd wd.word then [] else buf2
    let rest2 := emitRow buf3 pageNum rowIndex (pos + 1) rest
    (w :: rest2.1, rest2.2)

/-- The mutable state of a `PDFIndexer` instance (src/public/indexer.js,
constructor): `words`, `sentenceBuffer`, `customTolerance`,
`lastDetectedRows`.  (`currentSentence` is assigned in the constructor and
never used.) -/
structure IndexerState where
  words : List Word
  sentenceBuffer : List String
  customTolerance : Option ℚ
  lastDetectedRows : List (List Item)
  deriving Repr, DecidableEq

/-- `new PDFIndexer()`. -/
def PDFIndexer.new : IndexerState :=
  { words := [], sentenceBuffer := [], customTolerance := none,
    lastDetectedRows := [] }

/-- `PDFIndexer.processRow` (src/public/indexer.js, lines 188-243): collect
the row words, then emit them with sequential 1-based indices, appending to
`this.words` and updating `this.sentenceBuffer`. -/
def processRow (st : IndexerState) (row : List Item) (pageNum rowIndex : Nat) :
    IndexerState :=
  let rowWords := collectRowWords row
  let emitted := emitRow st.sentenceBuffer pageNum rowIndex 0 rowWords
  { st with words := st.words ++ emitted.1, sentenceBuffer := emitted.2 }

/-- The `rows.forEach((row, rowIndex) => processRow(row, pageNum, rowIndex+1))`
loop of `processPage`, with `rowIndex` the 1-based counter. -/
def processRowsFrom (st : IndexerState) (pageNum rowIndex : Nat) :
    List (List Item) → IndexerState
  | [] => st
  | r :: rs => processRowsFrom (processRow st r pageNum rowIndex) pageNum (rowIndex + 1) rs

/-- `PDFIndexer.processPage` (src/public/indexer.js): group the page's items
into rows (which also stores them in `lastDetectedRows`), then process each
row.  Page decoding and the per-page try/catch sit outside the model: a page
is already a list of projected items. -/
def processPage (st : IndexerState) (pageNum : Nat) (page : List Item) :
    IndexerState :=
  let rows := groupTextItemsByRows st.customTolerance page
  processRowsFrom { st with lastDetectedRows := rows } pageNum 1 rows

/-- The `for (let pageNum = 1; pageNum <= totalPages; pageNum++)` loop of
`indexPDF`. -/
def processPagesFrom (st : IndexerState) (pageNum : Nat) :
    List (List Item) → IndexerState
  | [] => st
  | p :: ps => processPagesFrom (processPage st pageNum p) (pageNum + 1) ps

/-- `PDFIndexer.indexPDF` (src/public/indexer.js, lines 30-48): reset
`this.words` to `[]` (note: `sentenceBuffer` is NOT reset), then process the
pages in order.  The final `storeWords()` call is the external Word Store
boundary. -/
def indexPDF (st : IndexerState) (pages : List (List Item)) : IndexerState :=
  processPagesFrom { st with words := [] } 1 pages

/-- `PDFIndexer.setCustomTolerance` (src/public/indexer.js, lines 378-381):
stores the value with no validation. -/
def setCustomTolerance (st : IndexerState) (tolerance : ℚ) : IndexerState :=
  { st with customTolerance := some tolerance }

/-- The method names defined on `class PDFIndexer` in src/public/indexer.js
(the entire class body). -/
def PDFIndexer.methodNames : List String :=
  ["constructor", "indexPDF", "processPage", "groupTextItemsByRows",
   "processRow", "tokenizeText", "isSentenceEnd", "calculateBoundingBox",
   "storeWords", "searchWords", "getStats", "setCustomTolerance",
   "getLastDetectedRows"]

/-- JavaScript dynamic dispatch on a `PDFIndexer` instance: a method call
resolves iff the class defines the method. -/
def PDFIndexer.hasMethod (name : String) : Bool :=
  name ∈ PDFIndexer.methodNames

/-- `PDFViewer.applyManualRowChanges` (src/public/main.js, lines 1432-1467):
guard on empty boundaries, then call
`this.indexer.setManualRowBoundaries(boundaries)` and re-index.  Calling a
method the class does not define throws a `TypeError`, which the
`catch` block reports via `showError`; no re-indexing happens in that case. -/
def applyManualRowChanges (boundaries : List ℚ) (st : IndexerState)
    (pages : List (List Item)) : Except String IndexerState :=
  if boundaries = [] then
    Except.error "No row boundaries set. Please add some boundaries first."
  else if PDFIndexer.hasMethod "setManualRowBoundaries" then
    Except.ok (indexPDF st pages)
  else
    Except.error
      "Manual row indexing failed: this.indexer.setManualRowBoundaries is not a function"

/-- Modelled from the spec (§4.2, §6 Manual boundary input) — this operation
is absent from src/public/indexer.js: given the sorted ascending cut-lines
`boundaries`, assign each fragment to the row whose boundary interval
contains its Y (interval `k` is bounded by the `k`-th and `(k+1)`-th
cut-lines, with the outer intervals open-ended), dropping empty intervals. -/
def clusterRowsWithBoundaries (boundaries : List ℚ) (items : List Item) :
    List (List Item) :=
  let intervalIndex := fun (y : ℚ) => (boundaries.filter (fun b => decide (b ≤ y))).length
  ((List.range (boundaries.length + 1)).map
    (fun k => items.filter (fun i => intervalIndex i.y = k))).filter
    (fun r => r ≠ [])

/-- A document added to the lunr index by the configuration closure:
`{ id, word, sentence, page, row, index }`. -/
structure LunrDoc where
  id : Nat
  word : String
  sentence : String
  page : Nat
  row : Nat
  index : Nat
  deriving Repr, DecidableEq

/-- A built lunr index: the declared fields with their boosts (default
boost 1) and the added documents. -/
structure LunrIndex where
  fields : List (String × ℚ)
  docs : List LunrDoc
  deriving Repr, DecidableEq

/-- The mutable state of a `PDFSearch` instance (src/public/search.js,
constructor): `index` (null until assigned), `words`, `isIndexBuilt`. -/
structure SearchState where
  index : Option LunrIndex
  words : List Word
  isIndexBuilt : Bool
  deriving Repr, DecidableEq

/-- `new PDFSearch()`. -/
def PDFSearch.new : SearchState :=
  { index := none, words := [], isIndexBuilt := false }

/-- The body of the `lunr(function () {...})` configuration closure of
`buildSearchIndex` (src/public/search.js, lines 74-93), evaluated with the
single `this` binding JavaScript fixes for the whole function call:
`thisHasField` says whether `this.field` resolves to the lunr Builder
method, and `thisWords` is what `this.words` resolves to (an array only
when `this` is the `PDFSearch` instance).  The closure first declares the
five fields via `this.field` — `word` boosted 10, `sentence` boosted 5,
`page`/`row`/`index` unboosted — and then iterates `this.words.forEach` to
add one document per word; a failed property lookup raises a TypeError. -/
def runLunrConfig (thisHasField : Bool) (thisWords : Option (List Word)) :
    Except String LunrIndex :=
  if !thisHasField then Except.error "TypeError: this.field is not a function"
  else
    let fields : List (String × ℚ) :=
      [("word", 10), ("sentence", 5), ("page", 1), ("row", 1), ("index", 1)]
    match thisWords with
    | none =>
      Except.error "TypeError: Cannot read properties of undefined (reading forEach)"
    | some ws =>
      Except.ok
        { fields := fields,
          docs := ws.enum.map (fun p =>
            { id := p.1, word := p.2.word, sentence := p.2.sentence,
              page := p.2.page, row := p.2.row, index := p.2.index }) }

/-- `PDFSearch.buildSearchIndex` (src/public/search.js, lines 64-102).
lunr invokes the configuration closure with `this` bound to the fresh
`lunr.Builder` (the library calls `config.call(builder)`), so inside the
closure `this.field` resolves (`thisHasField := true`) but `this.words` is
`undefined` (`thisWords := none`) — the `PDFSearch` instance's `words`
array is out of reach.  A thrown TypeError is caught by the catch block,
which sets `isIndexBuilt := false`; `this.index` is assigned only when
`lunr(...)` returns. -/
def buildSearchIndex (s : SearchState) : SearchState :=
  match runLunrConfig true none with
  | Except.ok idx => { s with index := some idx, isIndexBuilt := true }
  | Except.error _ => { s with isIndexBuilt := false }

/-- A search result: the word object spread together with the lunr score
(`matchData` is carried along in the source but never read afterwards). -/
structure SearchResult where
  word : Word
  score : ℚ
  deriving Repr, DecidableEq

/-- The word object a raw lunr result ref is mapped back to:
`this.words[result.ref]`. -/
def defaultWord : Word :=
  { word := "", page := 0, row := 0, index := 0, bbox := [], sentence := "" }

/-- The `searchResults.sort` comparator of `PDFSearch.search`
(src/public/search.js, lines 139-143), as the boolean relation
"comparator(a, b) ≤ 0": ascending page, then ascending row, then ascending
index.  The score is not consulted. -/
def resultLe (a b : SearchResult) : Bool :=
  if a.word.page ≠ b.word.page then decide (a.word.page < b.word.page)
  else if a.word.row ≠ b.word.row then decide (a.word.row < b.word.row)
  else decide (a.word.index ≤ b.word.index)

/-- `PDFSearch.search` (src/public/search.js, lines 109-152).  The lunr
index lookup `this.index.search(searchTerm)` is the external library
boundary, modelled by the oracle `rawSearch` that returns `(ref, score)`
pairs.  Guards, in source order: index missing or not built returns `[]`;
empty or whitespace-only term returns `[]` before the index is consulted;
otherwise the raw results are mapped back to the stored word objects and
sorted with the page/row/index comparator (stable sort). -/
def search (s : SearchState) (rawSearch : String → List (Nat × ℚ))
    (term : String) : List SearchResult :=
  if !s.isIndexBuilt || s.index.isNone then []
  else if jsTrim term = "" then []
  else
    let results := rawSearch term
    let searchResults := results.map (fun r =>
      { word := s.words.getD r.1 defaultWord, score := r.2 })
    searchResults.insertionSort (fun a b => resultLe a b = true)

namespace Legacy

/-- The legacy `sort((a, b) => bY - aY)` of src/unnamed/part_000, line 99:
a stable sort by descending projected Y (the comment says "higher Y values
first"); "comparator(a, b) ≤ 0" is `b.y ≤ a.y`. -/
def sortByYDesc (items : List Item) : List Item :=
  items.insertionSort (fun a b => b.y ≤ a.y)

/-- The legacy tolerance (src/unnamed/part_000, lines 114-122):
`avgTextHeight` is `0` when there are no items, else the mean positive
height with fallback `12`; the tolerance is
`Math.min(1, avgTextHeight * 0.1)` — `min`, where the current code uses
`max`. -/
def tolerance (items : List Item) : ℚ :=
  let avgTextHeight : ℚ :=
    if 0 < items.length then
      let heights := (items.map Item.height).filter (fun h => decide (0 < h))
      if 0 < heights.length then heights.sum / (heights.length : ℚ) else 12
    else 0
  jsMin 1 (avgTextHeight * (1 / 10))

/-- The legacy `PDFIndexer.groupTextItemsByRows` (src/unnamed/part_000,
lines 95-159): stable sort by descending Y, legacy tolerance, then the same
first-fit loop (`for` over rows, append to the first row whose `rows[i][0].y`
is within tolerance, else push a new row) and the same within-row ascending-X
sort.  Unlike the current version, rows are created in descending-Y order
and never re-sorted. -/
def groupTextItemsByRows (textItems : List Item) : List (List Item) :=
  let sortedItems := sortByYDesc textItems
  let tol := tolerance sortedItems
  let rows := assignRows tol sortedItems
  rows.map sortRowByX

end Legacy

/-- The anchor Y of a row: the projected Y of its first-assigned fragment
(`row[0].y` at assignment time; appended fragments go to the back). -/
def rowAnchorY (row : List Item) : ℚ :=
  ((row.head?).map Item.y).getD 0

/-- The sentence-buffer state machine of `processRow`, run over a word
sequence: append each word, clearing the buffer after a sentence-ending
word. -/
def bufAfter (buf : List String) : List String → List String
  | [] => buf
  | w :: ws => bufAfter (if isSentenceEnd w then [] else buf ++ [w]) ws

/-! ## Supporting lemmas: word extraction -/

theorem emitRow_length (pageNum rowIndex : Nat) (rws : List RowWord) :
    ∀ (buf : List String) (pos : Nat),
      (emitRow buf pageNum rowIndex pos rws).1.length = rws.length := by
  induction rws with
  | nil => intro buf pos; rfl
  | cons wd rest ih => intro buf pos; simp [emitRow, ih]

theorem emitRow_map_index (pageNum rowIndex : Nat) (rws : List RowWord) :
    ∀ (buf : List String) (pos : Nat),
      (emitRow buf pageNum rowIndex pos rws).1.map Word.index =
        List.range' (pos + 1) rws.length := by
  induction rws with
  | nil => intro buf pos; rfl
  | cons wd rest ih =>
      intro buf pos
      simp [emitRow, ih, List.range'_succ]

theorem toList_mk (l : List Char) : (String.mk l).toList = l := rfl

theorem mk_ne_empty (l : List Char) (h : l ≠ []) : String.mk l ≠ "" := by
  intro h0
  exact h (by simpa [toList_mk] using congrArg String.toList h0)

theorem splitWsAux_tokens (t : String) :
    ∀ (l cur : List Char), (∀ c ∈ cur, jsSpace c = false) →
      t ∈ splitWsAux l cur →
      t ≠ "" ∧ ∀ c ∈ t.toList, jsSpace c = false := by
  intro l
  induction l with
  | nil =>
      intro cur hcur ht
      by_cases hc : cur = []
      · simp [splitWsAux, hc] at ht
      · simp only [splitWsAux, if_neg hc, List.mem_singleton] at ht
        subst ht
        refine ⟨mk_ne_empty _ (by simpa using hc), ?_⟩
        intro c hcm
        exact hcur c (List.mem_reverse.mp (by simpa [toList_mk] using hcm))
  | cons ch cs ih =>
      intro cur hcur ht
      by_cases hsp : jsSpace ch
      · by_cases hc : cur = []
        · simp only [splitWsAux, if_pos hsp, if_pos hc] at ht
          exact ih [] (by simp) ht
        · simp only [splitWsAux, if_pos hsp, if_neg hc, List.mem_cons] at ht
          rcases ht with rfl | ht
          · refine ⟨mk_ne_empty _ (by simpa using hc), ?_⟩
            intro c hcm
            exact hcur c (List.mem_reverse.mp (by simpa [toList_mk] using hcm))
          · exact ih [] (by simp) ht
      · simp only [splitWsAux, if_neg hsp] at ht
        refine ih (ch :: cur) ?_ ht
        intro c hcm
        rcases List.mem_cons.mp hcm with rfl | hcm
        · exact Bool.of_not_eq_true hsp
        · exact hcur c hcm

theorem tokenizeText_tokens (s t : String) (h : t ∈ tokenizeText s) :
    t ≠ "" ∧ ∀ c ∈ t.toList, jsSpace c = false :=
  splitWsAux_tokens t s.toList [] (by simp) h

theorem dropWhile_all_false (p : Char → Bool) (l : List Char)
    (h : ∀ c ∈ l, p c = false) : l.dropWhile p = l := by
  cases l with
  | nil => rfl
  | cons c cs => simp [List.dropWhile_cons, h c (by simp)]

theorem jsTrim_of_no_space (s : String)
    (h : ∀ c ∈ s.toList, jsSpace c = false) : jsTrim s = s := by
  unfold jsTrim
  rw [dropWhile_all_false jsSpace s.toList h]
  rw [dropWhile_all_false jsSpace s.toList.reverse
    (fun c hc => h c (List.mem_reverse.mp hc))]
  simp

theorem token_filterMap_eq (f : String → List ℚ) (l : List String)
    (h : ∀ w ∈ l, jsTrim w = w ∧ w ≠ "") :
    (l.filterMap (fun word =>
        if jsTrim word ≠ "" then
          some { word := jsTrim word, bbox := f word }
        else none))
      = l.map (fun word => ({ word := word, bbox := f word } : RowWord)) := by
  induction l with
  | nil => rfl
  | cons w rest ih =>
      have hw := h w (by simp)
      have hrest := fun x hx => h x (List.mem_cons_of_mem w hx)
      simp [List.filterMap_cons, hw.1, hw.2]
      simpa using ih hrest

theorem collectRowWords_eq_map (row : List Item) :
    collectRowWords row = row.flatMap (fun item =>
      (tokenizeText item.str).map (fun word =>
        ({ word := word, bbox := calculateBoundingBox item word } : RowWord))) := by
  unfold collectRowWords
  congr 1
  funext item
  refine token_filterMap_eq _ _ ?_
  intro w hw
  have := tokenizeText_tokens item.str w hw
  exact ⟨jsTrim_of_no_space w this.2, this.1⟩

theorem collectRowWords_length (row : List Item) :
    (collectRowWords row).length =
      (row.flatMap (fun item => tokenizeText item.str)).length := by
  rw [collectRowWords_eq_map]
  have hlen : (List.length ∘ fun item : Item =>
        (tokenizeText item.str).map (fun word =>
          ({ word := word, bbox := calculateBoundingBox item word } : RowWord)))
      = (List.length ∘ fun item : Item => tokenizeText item.str) := by
    funext item
    simp [Function.comp]
  rw [List.length_flatMap, List.length_flatMap, hlen]

/-- C8: for every row processed by the Word Extractor, the emitted words'
`indexInRow` values (the `index` field) are exactly the contiguous sequence
`1..N`, where `N` is the total number of tokens collected across all
fragments of the row in fragment order then token order; `processRow`
appends exactly these words after the previously accumulated ones. -/
theorem processRow_indexInRow_contiguous (st : IndexerState) (row : List Item)
    (pageNum rowIndex : Nat) :
    (processRow st row pageNum rowIndex).words.map Word.index =
      st.words.map Word.index ++
        List.range' 1 (row.flatMap (fun item => tokenizeText item.str)).length := by
  simp [processRow, emitRow_map_index, collectRowWords_length]

/-! ## The search engine -/

/-- C9: a search term that is empty or consists only of whitespace
(equivalently, its JavaScript `trim` is empty) makes `search` return `[]`
with no error, for every state and every behaviour of the underlying lunr
index — the oracle `rawSearch` is never consulted. -/
theorem search_empty_term_returns_empty (s : SearchState)
    (rawSearch : String → List (Nat × ℚ)) (term : String)
    (h : jsTrim term = "") :
    search s rawSearch term = [] := by
  unfold search
  split
  · rfl
  · simp [h]

theorem search_empty_term_returns_empty_witness :
    jsTrim "   " = "" ∧
      search { index := some { fields := [], docs := [] }, words := [],
               isIndexBuilt := true }
        (fun _ => [(0, 1)]) "   " = [] :=
  ⟨by decide, search_empty_term_returns_empty _ _ _ (by decide)⟩

/-- C3 (code bug): `buildSearchIndex` can never succeed.  Inside the
`lunr(function () {...})` closure the single `this` binding is the lunr
Builder, whose `words` property is undefined, so `this.words.forEach`
raises a TypeError (and under the alternative binding `this.field` would
already fail); the catch block then leaves `isIndexBuilt = false` and
`this.index` unassigned.  Hence for every state — including one holding a
non-empty word snapshot — the index is reported unbuilt, no fields or
documents are ever registered, and every subsequent query returns `[]`. -/
theorem buildSearchIndex_never_builds :
    (∀ s : SearchState,
      (buildSearchIndex s).isIndexBuilt = false ∧
      (buildSearchIndex s).index = s.index) ∧
    (∀ thisWords : Option (List Word),
      runLunrConfig false thisWords =
        Except.error "TypeError: this.field is not a function") ∧
    (buildSearchIndex
        { index := none,
          words := [{ word := "Hello", page := 1, row := 1, index := 1,
                      bbox := [0, 0, 10, 12], sentence := "Hello" }],
          isIndexBuilt := false }).isIndexBuilt = false ∧
    (∀ (rawSearch : String → List (Nat × ℚ)) (term : String),
      search
        (buildSearchIndex
          { index := none,
            words := [{ word := "Hello", page := 1, row := 1, index := 1,
                        bbox := [0, 0, 10, 12], sentence := "Hello" }],
            isIndexBuilt := false })
        rawSearch term = []) :=
  ⟨fun _ => ⟨rfl, rfl⟩, fun _ => rfl, rfl, fun _ _ => rfl⟩

/-! ## Manual row boundaries -/

/-- C1 (code bug): the manual-boundary override does not exist in the code.
`class PDFIndexer` defines no `setManualRowBoundaries` method, so
`applyManualRowChanges` — here at the spec's Scenario D boundaries
`[50, 120]` — always fails with a TypeError and never re-indexes, and row
grouping always uses tolerance clustering: for the fragments at `Y = 60`
and `Y = 100` (height 12, default tolerance 1.2) the code produces two
rows, while the spec's boundary assignment puts both into the single
`[50, 120)` interval row. -/
theorem manualRowBoundaries_unimplemented :
    PDFIndexer.hasMethod "setManualRowBoundaries" = false ∧
    applyManualRowChanges [50, 120] PDFIndexer.new
        [[{ str := "a", x := 0, y := 60, width := 10, height := 12 },
          { str := "b", x := 0, y := 100, width := 10, height := 12 }]]
      = Except.error
          "Manual row indexing failed: this.indexer.setManualRowBoundaries is not a function" ∧
    (groupTextItemsByRows none
        [{ str := "a", x := 0, y := 60, width := 10, height := 12 },
         { str := "b", x := 0, y := 100, width := 10, height := 12 }]).length = 2 ∧
    (clusterRowsWithBoundaries [50, 120]
        [{ str := "a", x := 0, y := 60, width := 10, height := 12 },
         { str := "b", x := 0, y := 100, width := 10, height := 12 }]).length = 1 := by
  refine ⟨by decide, by with_unfolding_all rfl, ?_, by with_unfolding_all decide⟩
  with_unfolding_all decide

theorem resultLe_iff (a b : SearchResult) :
    resultLe a b = true ↔
      (a.word.page < b.word.page ∨
        (a.word.page = b.word.page ∧
          (a.word.row < b.word.row ∨
            (a.word.row = b.word.row ∧ a.word.index ≤ b.word.index)))) := by
  unfold resultLe
  by_cases hp : a.word.page = b.word.page
  · by_cases hr : a.word.row = b.word.row
    · simp [hp, hr]
    · simp [hp, hr]
  · simp [hp]

theorem resultRel_total : IsTotal SearchResult (fun a b => resultLe a b = true) := by
  refine ⟨?_⟩
  intro a b
  simp only [resultLe_iff]
  omega

theorem resultRel_trans : IsTrans SearchResult (fun a b => resultLe a b = true) := by
  refine ⟨?_⟩
  intro a b c
  simp only [resultLe_iff]
  omega

/-- C2 amended: the result list returned by `search` is sorted by ascending
page, then ascending row, then ascending `indexInRow` — for every state,
every term and every behaviour of the underlying lunr index.  The
comparator never consults the score, so descending score is NOT the primary
sort key (see the counterexample). -/
theorem search_sorted_by_page_row_index (s : SearchState)
    (rawSearch : String → List (Nat × ℚ)) (term : String) :
    List.Pairwise (fun a b : SearchResult =>
      a.word.page < b.word.page ∨
        (a.word.page = b.word.page ∧
          (a.word.row < b.word.row ∨
            (a.word.row = b.word.row ∧ a.word.index ≤ b.word.index))))
      (search s rawSearch term) := by
  have hsort : ∀ l : List SearchResult,
      List.Pairwise (fun a b => resultLe a b = true)
        (l.insertionSort (fun a b => resultLe a b = true)) := by
    intro l
    haveI := resultRel_total
    haveI := resultRel_trans
    exact List.sorted_insertionSort _ l
  unfold search
  split
  · exact List.Pairwise.nil
  · split
    · exact List.Pairwise.nil
    · exact (hsort _).imp (fun h => (resultLe_iff _ _).mp h)

/-- C2 counterexample: two matching records, scores 5 (page 2) and 1
(page 1); `search` returns the score-1 result first because the sort key is
(page, row, indexInRow) — a result with strictly higher score does not
precede a lower-score one. -/
theorem search_score_order_counterexample :
    (search { index := some { fields := [], docs := [] },
              words := [{ word := "alpha", page := 1, row := 1, index := 1,
                          bbox := [], sentence := "alpha" },
                        { word := "alpha", page := 2, row := 1, index := 1,
                          bbox := [], sentence := "alpha" }],
              isIndexBuilt := true }
        (fun _ => [(1, 5), (0, 1)]) "alpha").map SearchResult.score
      = [1, 5] ∧ (1 : ℚ) < 5 := by
  constructor
  · with_unfolding_all decide
  · with_unfolding_all decide

/-! ## Sentence buffer across rows, pages and runs -/

theorem processRow_words_eq (st : IndexerState) (row : List Item)
    (p r : Nat) :
    (processRow st row p r).words =
      st.words ++ (emitRow st.sentenceBuffer p r 0 (collectRowWords row)).1 := rfl

theorem processRowsFrom_words_extend (p : Nat) (rs : List (List Item)) :
    ∀ (st : IndexerState) (i : Nat),
      ∃ t, (processRowsFrom st p i rs).words = st.words ++ t := by
  induction rs with
  | nil => intro st i; exact ⟨[], by simp [processRowsFrom]⟩
  | cons r rest ih =>
      intro st i
      obtain ⟨t, ht⟩ := ih (processRow st r p i) (i + 1)
      refine ⟨(emitRow st.sentenceBuffer p i 0 (collectRowWords r)).1 ++ t, ?_⟩
      simp [processRowsFrom, ht, processRow_words_eq]

theorem processRowsFrom_first_sentence (p : Nat) (rs : List (List Item)) :
    ∀ (st : IndexerState) (i : Nat), st.words = [] →
      ((processRowsFrom st p i rs).words = [] ∧
        (processRowsFrom st p i rs).sentenceBuffer = st.sentenceBuffer) ∨
      (∃ w t, (processRowsFrom st p i rs).words = w :: t ∧
        w.sentence = String.intercalate " " (st.sentenceBuffer ++ [w.word])) := by
  induction rs with
  | nil => intro st i h; exact Or.inl ⟨h, rfl⟩
  | cons r rest ih =>
      intro st i h
      cases hcw : collectRowWords r with
      | nil =>
          have hw2 : (processRow st r p i).words = [] := by
            rw [processRow_words_eq, hcw, h]
            rfl
          have hb2 : (processRow st r p i).sentenceBuffer = st.sentenceBuffer := by
            show (emitRow st.sentenceBuffer p i 0 (collectRowWords r)).2 =
              st.sentenceBuffer
            rw [hcw]
            rfl
          rcases ih (processRow st r p i) (i + 1) hw2 with ⟨h1, h2⟩ | ⟨w, t, hw, hs⟩
          · refine Or.inl ⟨by simpa [processRowsFrom] using h1, ?_⟩
            rw [show processRowsFrom st p i (r :: rest) =
                processRowsFrom (processRow st r p i) p (i + 1) rest from rfl,
              h2, hb2]
          · refine Or.inr ⟨w, t, by simpa [processRowsFrom] using hw, ?_⟩
            rw [hb2] at hs
            exact hs
      | cons wd rws =>
          right
          have hw0 : (processRow st r p i).words =
              ({ word := wd.word, page := p, row := i, index := 1,
                 bbox := wd.bbox,
                 sentence := String.intercalate " " (st.sentenceBuffer ++ [wd.word]) } : Word)
              :: (emitRow (if isSentenceEnd wd.word then []
                    else st.sentenceBuffer ++ [wd.word]) p i 1 rws).1 := by
            simp [processRow_words_eq, hcw, emitRow, h]
          obtain ⟨t, ht⟩ :=
            processRowsFrom_words_extend p rest (processRow st r p i) (i + 1)
          rw [hw0] at ht
          exact ⟨_, _, by simpa [processRowsFrom] using ht, rfl⟩

theorem processPage_words_eq (st : IndexerState) (p : Nat) (page : List Item) :
    processPage st p page =
      processRowsFrom
        { st with lastDetectedRows := groupTextItemsByRows st.customTolerance page }
        p 1 (groupTextItemsByRows st.customTolerance page) := rfl

theorem processPagesFrom_words_extend (pages : List (List Item)) :
    ∀ (st : IndexerState) (p : Nat),
      ∃ t, (processPagesFrom st p pages).words = st.words ++ t := by
  induction pages with
  | nil => intro st p; exact ⟨[], by simp [processPagesFrom]⟩
  | cons page rest ih =>
      intro st p
      obtain ⟨t1, ht1⟩ := processRowsFrom_words_extend p
        (groupTextItemsByRows st.customTolerance page)
        { st with lastDetectedRows := groupTextItemsByRows st.customTolerance page } 1
      obtain ⟨t2, ht2⟩ := ih (processPage st p page) (p + 1)
      refine ⟨t1 ++ t2, ?_⟩
      have hw : (processPage st p page).words = st.words ++ t1 := by
        simpa [processPage_words_eq] using ht1
      simp [processPagesFrom, ht2, hw]

theorem processPagesFrom_first_sentence (pages : List (List Item)) :
    ∀ (st : IndexerState) (p : Nat), st.words = [] →
      ((processPagesFrom st p pages).words = [] ∧
        (processPagesFrom st p pages).sentenceBuffer = st.sentenceBuffer) ∨
      (∃ w t, (processPagesFrom st p pages).words = w :: t ∧
        w.sentence = String.intercalate " " (st.sentenceBuffer ++ [w.word])) := by
  induction pages with
  | nil => intro st p h; exact Or.inl ⟨h, rfl⟩
  | cons page rest ih =>
      intro st p h
      rcases processRowsFrom_first_sentence p
          (groupTextItemsByRows st.customTolerance page)
          { st with lastDetectedRows := groupTextItemsByRows st.customTolerance page }
          1 (by simpa using h) with ⟨h1, h2⟩ | ⟨w, t, hw, hs⟩
      · rcases ih (processPage st p page) (p + 1) (by simpa [processPage_words_eq] using h1) with
          ⟨g1, g2⟩ | ⟨w, t, hw, hs⟩
        · refine Or.inl ⟨by simpa [processPagesFrom] using g1, ?_⟩
          have : (processPage st p page).sentenceBuffer = st.sentenceBuffer := by
            simpa [processPage_words_eq] using h2
          simpa [processPagesFrom, this] using g2
        · refine Or.inr ⟨w, t, by simpa [processPagesFrom] using hw, ?_⟩
          have : (processPage st p page).sentenceBuffer = st.sentenceBuffer := by
            simpa [processPage_words_eq] using h2
          simpa [this] using hs
      · have hpp : (processPage st p page).words = w :: t := by
          simpa [processPage_words_eq] using hw
        obtain ⟨t2, ht2⟩ := processPagesFrom_words_extend rest (processPage st p page) (p + 1)
        rw [hpp] at ht2
        exact Or.inr ⟨w, t ++ t2, by simpa [processPagesFrom] using ht2, hs⟩

theorem indexPDF_words_eq (st : IndexerState) (pages : List (List Item)) :
    indexPDF st pages = processPagesFrom { st with words := [] } 1 pages := rfl

/-- C4 amended: `indexPDF` clears the word list but NOT the sentence
buffer.  Whenever a run emits at least one word, the first emitted word's
`sentence` is the space-join of the instance's carried-over buffer with the
word's own text; it equals the word's own text exactly when the carried
buffer is empty — e.g. on a freshly constructed indexer, or when the
previous run ended at a sentence terminator — but not in general (see the
counterexample). -/
theorem indexPDF_first_word_sentence (st : IndexerState)
    (pages : List (List Item)) (w : Word)
    (h : (indexPDF st pages).words.head? = some w) :
    w.sentence = String.intercalate " " (st.sentenceBuffer ++ [w.word]) ∧
      (st.sentenceBuffer = [] → w.sentence = w.word) := by
  have hmain : w.sentence = String.intercalate " " (st.sentenceBuffer ++ [w.word]) := by
    rcases processPagesFrom_first_sentence pages { st with words := [] } 1 rfl with
      ⟨h1, _⟩ | ⟨w0, t, hw, hs⟩
    · rw [indexPDF_words_eq, h1] at h
      simp at h
    · rw [indexPDF_words_eq, hw] at h
      simp at h
      subst h
      simpa using hs
  refine ⟨hmain, fun hb => ?_⟩
  rw [hmain, hb]
  rfl

theorem indexPDF_first_word_sentence_witness :
    ((indexPDF PDFIndexer.new
        [[{ str := "Hi there", x := 0, y := 0, width := 16, height := 10 }]]).words.head?
      = some { word := "Hi", page := 1, row := 1, index := 1,
               bbox := [0, -10, 4, 0], sentence := "Hi" }) ∧
    ({ word := "Hi", page := 1, row := 1, index := 1,
       bbox := [0, -10, 4, 0], sentence := "Hi" } : Word).sentence =
      String.intercalate " " (PDFIndexer.new.sentenceBuffer ++ ["Hi"]) :=
  ⟨by with_unfolding_all decide,
   (indexPDF_first_word_sentence PDFIndexer.new
      [[{ str := "Hi there", x := 0, y := 0, width := 16, height := 10 }]]
      { word := "Hi", page := 1, row := 1, index := 1,
        bbox := [0, -10, 4, 0], sentence := "Hi" }
      (by with_unfolding_all decide)).1⟩

/-- C4 counterexample: two `indexPDF` runs on the same indexer instance;
the first run ends with the unterminated word `Hello`, and the first (only)
word of the second run gets sentence `"Hello world"`, not its own text
`"world"` — the buffer is not reset at the start of a run. -/
theorem indexPDF_buffer_persists_counterexample :
    ((indexPDF (indexPDF PDFIndexer.new
          [[{ str := "Hello", x := 0, y := 0, width := 10, height := 10 }]])
        [[{ str := "world", x := 0, y := 0, width := 10, height := 10 }]]).words.map
        Word.sentence = ["Hello world"]) ∧
      ("Hello world" ≠ "world") := by
  constructor
  · with_unfolding_all decide
  · decide

theorem emitRow_sentence_spec (p r : Nat) (rws : List RowWord) :
    ∀ (buf : List String) (pos k : Nat) (w : Word),
      (emitRow buf p r pos rws).1[k]? = some w →
      (w.sentence = String.intercalate " "
          (bufAfter buf ((rws.take k).map RowWord.word) ++ [w.word])) ∧
      (∀ w2 : Word, isSentenceEnd w.word = true →
        (emitRow buf p r pos rws).1[k + 1]? = some w2 →
        w2.sentence = w2.word) := by
  induction rws with
  | nil => intro buf pos k w h; simp [emitRow] at h
  | cons wd rest ih =>
      intro buf pos k w h
      cases k with
      | zero =>
          have hw : w =
              { word := wd.word, page := p, row := r, index := pos + 1,
                bbox := wd.bbox,
                sentence := String.intercalate " " (buf ++ [wd.word]) } := by
            simp [emitRow] at h
            exact h.symm
          constructor
          · rw [hw]
            simp [bufAfter]
          · intro w2 hend h2
            have hwe : isSentenceEnd wd.word = true := by
              rw [hw] at hend
              exact hend
            cases rest with
            | nil => simp [emitRow] at h2
            | cons wd2 rest2 =>
                simp [emitRow, hwe] at h2
                rw [← h2]
                rfl
      | succ k0 =>
          have hp : (emitRow
              (if isSentenceEnd wd.word then [] else buf ++ [wd.word])
              p r (pos + 1) rest).1[k0]? = some w := by
            simpa [emitRow] using h
          have hrec := ih _ (pos + 1) k0 w hp
          constructor
          · rw [hrec.1]
            simp [bufAfter]
          · intro w2 hend h2
            apply hrec.2 w2 hend
            simpa [emitRow] using h2

/-- C5: sentence tracking in the Word Extractor.  For the `k`-th word
emitted by `processRow`'s second pass (over the collected row words,
starting from the instance's sentence buffer), the `sentence` field is the
space-join of the buffer as of that word INCLUDING the word's own token;
and when that token ends with `.`, `!` or `?`, the buffer is cleared only
after the word is recorded, so the terminating word still carries the full
sentence while the next emitted word (if any) has a sentence equal to its
own text alone. -/
theorem processRow_sentence_tracking (st : IndexerState) (row : List Item)
    (p r k : Nat) (w : Word)
    (h : (emitRow st.sentenceBuffer p r 0 (collectRowWords row)).1[k]? = some w) :
    (processRow st row p r).words =
      st.words ++ (emitRow st.sentenceBuffer p r 0 (collectRowWords row)).1 ∧
    w.sentence = String.intercalate " "
      (bufAfter st.sentenceBuffer
        (((collectRowWords row).take k).map RowWord.word) ++ [w.word]) ∧
    (∀ w2 : Word, isSentenceEnd w.word = true →
      (emitRow st.sentenceBuffer p r 0 (collectRowWords row)).1[k + 1]? = some w2 →
      w2.sentence = w2.word) := by
  have hrec := emitRow_sentence_spec p r (collectRowWords row) st.sentenceBuffer 0 k w h
  exact ⟨rfl, hrec.1, hrec.2⟩

theorem processRow_sentence_tracking_witness :
    ((emitRow PDFIndexer.new.sentenceBuffer 1 1 0
        (collectRowWords
          [{ str := "Hello world. New", x := 0, y := 10, width := 16, height := 10 }])).1[1]?
      = some { word := "world.", page := 1, row := 1, index := 2,
               bbox := [6, 0, 12, 10], sentence := "Hello world." }) ∧
    ((processRow PDFIndexer.new
        [{ str := "Hello world. New", x := 0, y := 10, width := 16, height := 10 }] 1 1).words =
      PDFIndexer.new.words ++
        (emitRow PDFIndexer.new.sentenceBuffer 1 1 0
          (collectRowWords
            [{ str := "Hello world. New", x := 0, y := 10, width := 16, height := 10 }])).1 ∧
    ({ word := "world.", page := 1, row := 1, index := 2,
       bbox := [6, 0, 12, 10], sentence := "Hello world." } : Word).sentence =
      String.intercalate " "
        (bufAfter PDFIndexer.new.sentenceBuffer
          (((collectRowWords
              [{ str := "Hello world. New", x := 0, y := 10, width := 16, height := 10 }]).take 1).map
            RowWord.word) ++
          [({ word := "world.", page := 1, row := 1, index := 2,
              bbox := [6, 0, 12, 10], sentence := "Hello world." } : Word).word]) ∧
    (∀ w2 : Word,
      isSentenceEnd ({ word := "world.", page := 1, row := 1, index := 2,
                       bbox := [6, 0, 12, 10],
                       sentence := "Hello world." } : Word).word = true →
      (emitRow PDFIndexer.new.sentenceBuffer 1 1 0
          (collectRowWords
            [{ str := "Hello world. New", x := 0, y := 10, width := 16, height := 10 }])).1[1 + 1]?
        = some w2 →
      w2.sentence = w2.word)) :=
  ⟨by with_unfolding_all decide,
   processRow_sentence_tracking PDFIndexer.new
     [{ str := "Hello world. New", x := 0, y := 10, width := 16, height := 10 }] 1 1 1
     { word := "world.", page := 1, row := 1, index := 2,
       bbox := [6, 0, 12, 10], sentence := "Hello world." }
     (by with_unfolding_all decide)⟩

/-! ## Row ordering: anchors ascend -/

theorem rowAnchorY_append (r : List Item) (it : Item) (h : r ≠ []) :
    rowAnchorY (r ++ [it]) = rowAnchorY r := by
  cases r with
  | nil => exact absurd rfl h
  | cons a rr => rfl

theorem matchesRow_ne_nil (tol : ℚ) (it : Item) (r : List Item)
    (h : matchesRow tol it r = true) : r ≠ [] := by
  cases r with
  | nil => simp [matchesRow] at h
  | cons a rr => simp

theorem anchors_addItem (tol : ℚ) (it : Item) (rows : List (List Item)) :
    (addItem tol it rows).map rowAnchorY = rows.map rowAnchorY ++ [it.y] ∨
    (addItem tol it rows).map rowAnchorY = rows.map rowAnchorY := by
  induction rows with
  | nil => left; simp [addItem, rowAnchorY]
  | cons r rs ih =>
      by_cases hm : matchesRow tol it r
      · right
        simp [addItem, hm, rowAnchorY_append r it (matchesRow_ne_nil tol it r hm)]
      · rcases ih with h1 | h1
        · left; simp [addItem, hm, h1]
        · right; simp [addItem, hm, h1]

theorem anchors_foldl_sublist (tol : ℚ) (l : List Item) :
    ∀ rows : List (List Item),
      ((l.foldl (fun rows item => addItem tol item rows) rows).map rowAnchorY).Sublist
        (rows.map rowAnchorY ++ l.map Item.y) := by
  induction l with
  | nil => intro rows; simp
  | cons it l2 ih =>
      intro rows
      have step := ih (addItem tol it rows)
      rcases anchors_addItem tol it rows with h1 | h1
      · rw [h1] at step
        simp only [List.foldl_cons, List.map_cons]
        simpa [List.append_assoc] using step
      · rw [h1] at step
        simp only [List.foldl_cons, List.map_cons]
        refine List.Sublist.trans step ?_
        refine List.Sublist.append_left ?_ (rows.map rowAnchorY)
        exact List.sublist_cons_self it.y (l2.map Item.y)

theorem group_eq_assign (customTolerance : Option ℚ) (items : List Item) :
    groupTextItemsByRows customTolerance items =
      (assignRows (effectiveTolerance customTolerance (sortByY items))
        (sortByY items)).map sortRowByX := rfl

/-- C7: the Row Clusterer returns the clustered rows in ascending order of
anchor Y, the anchor of a row being the projected Y of its first-assigned
fragment (`rowAnchorY`); the returned rows are exactly the assigned rows,
each sorted by X, in assignment order.  (The property holds for any
nonnegative tolerance, matching the claim; the anchors of the greedily
created rows form a sublist of the ascending-Y-sorted input.) -/
theorem rowClusterer_rows_sorted_by_anchor (customTolerance : Option ℚ)
    (items : List Item)
    (_h : 0 ≤ effectiveTolerance customTolerance (sortByY items)) :
    groupTextItemsByRows customTolerance items =
      (assignRows (effectiveTolerance customTolerance (sortByY items))
        (sortByY items)).map sortRowByX ∧
    List.Pairwise (· ≤ ·)
      ((assignRows (effectiveTolerance customTolerance (sortByY items))
        (sortByY items)).map rowAnchorY) := by
  refine ⟨rfl, ?_⟩
  have hsorted : List.Pairwise (fun a b : Item => a.y ≤ b.y) (sortByY items) := by
    haveI : IsTotal Item (fun a b : Item => a.y ≤ b.y) :=
      ⟨fun a b => le_total a.y b.y⟩
    haveI : IsTrans Item (fun a b : Item => a.y ≤ b.y) :=
      ⟨fun a b c hab hbc => le_trans hab hbc⟩
    exact List.sorted_insertionSort _ items
  have hys : List.Pairwise (fun a b : ℚ => a ≤ b) ((sortByY items).map Item.y) :=
    List.pairwise_map.2 hsorted
  have hsub := anchors_foldl_sublist
    (effectiveTolerance customTolerance (sortByY items)) (sortByY items) []
  simp only [List.map_nil, List.nil_append] at hsub
  exact List.Pairwise.sublist hsub hys

theorem rowClusterer_rows_sorted_by_anchor_witness :
    ((0 : ℚ) ≤ effectiveTolerance (some 1)
      (sortByY [{ str := "a", x := 0, y := 30, width := 10, height := 12 },
                { str := "b", x := 0, y := 10, width := 10, height := 12 }])) ∧
    (groupTextItemsByRows (some 1)
        [{ str := "a", x := 0, y := 30, width := 10, height := 12 },
         { str := "b", x := 0, y := 10, width := 10, height := 12 }] =
      (assignRows (effectiveTolerance (some 1)
          (sortByY [{ str := "a", x := 0, y := 30, width := 10, height := 12 },
                    { str := "b", x := 0, y := 10, width := 10, height := 12 }]))
        (sortByY [{ str := "a", x := 0, y := 30, width := 10, height := 12 },
                  { str := "b", x := 0, y := 10, width := 10, height := 12 }])).map
        sortRowByX ∧
    List.Pairwise (· ≤ ·)
      ((assignRows (effectiveTolerance (some 1)
          (sortByY [{ str := "a", x := 0, y := 30, width := 10, height := 12 },
                    { str := "b", x := 0, y := 10, width := 10, height := 12 }]))
        (sortByY [{ str := "a", x := 0, y := 30, width := 10, height := 12 },
                  { str := "b", x := 0, y := 10, width := 10, height := 12 }])).map
        rowAnchorY)) :=
  ⟨by with_unfolding_all decide,
   rowClusterer_rows_sorted_by_anchor (some 1)
     [{ str := "a", x := 0, y := 30, width := 10, height := 12 },
      { str := "b", x := 0, y := 10, width := 10, height := 12 }]
     (by with_unfolding_all decide)⟩

/-! ## Nonpositive tolerances -/

theorem jsAbs_nonneg (q : ℚ) : 0 ≤ jsAbs q := by
  unfold jsAbs
  split <;> linarith

theorem jsAbs_eq_zero (q : ℚ) (h : jsAbs q ≤ 0) : q = 0 := by
  unfold jsAbs at h
  split at h <;> linarith

theorem jsAbs_zero : jsAbs 0 = 0 := by
  unfold jsAbs
  simp

theorem matchesRow_neg (tol : ℚ) (htol : tol < 0) (it : Item) (r : List Item) :
    matchesRow tol it r = false := by
  cases r with
  | nil => rfl
  | cons a rr =>
      simp only [matchesRow, decide_eq_false_iff_not]
      intro hle
      have := jsAbs_nonneg (it.y - a.y)
      linarith

theorem addItem_neg (tol : ℚ) (htol : tol < 0) (it : Item) :
    ∀ rows : List (List Item), addItem tol it rows = rows ++ [[it]] := by
  intro rows
  induction rows with
  | nil => rfl
  | cons r rs ih => simp [addItem, matchesRow_neg tol htol, ih]

theorem assignRows_neg (tol : ℚ) (htol : tol < 0) (l : List Item) :
    assignRows tol l = l.map (fun i => [i]) := by
  suffices h : ∀ rows : List (List Item),
      l.foldl (fun rows item => addItem tol item rows) rows =
        rows ++ l.map (fun i => [i]) by
    simpa [assignRows] using h []
  induction l with
  | nil => intro rows; simp
  | cons it l2 ih =>
      intro rows
      simp only [List.foldl_cons, List.map_cons]
      rw [addItem_neg tol htol, ih (rows ++ [[it]])]
      simp

theorem flatten_addItem_perm (tol : ℚ) (it : Item) (rows : List (List Item)) :
    (addItem tol it rows).flatten.Perm (rows.flatten ++ [it]) := by
  induction rows with
  | nil => simp [addItem]
  | cons r rs ih =>
      by_cases hm : matchesRow tol it r
      · simp only [addItem, if_pos hm, List.flatten_cons]
        rw [show (r ++ [it]) ++ rs.flatten = r ++ ([it] ++ rs.flatten) by simp,
          show (r ++ rs.flatten) ++ [it] = r ++ (rs.flatten ++ [it]) by simp]
        exact List.Perm.append_left r List.perm_append_comm
      · simp only [addItem, if_neg hm, List.flatten_cons]
        rw [show (r ++ rs.flatten) ++ [it] = r ++ (rs.flatten ++ [it]) by simp]
        exact List.Perm.append_left r ih

theorem flatten_assignRows_perm (tol : ℚ) (l : List Item) :
    (assignRows tol l).flatten.Perm l := by
  suffices h : ∀ rows : List (List Item),
      ((l.foldl (fun rows item => addItem tol item rows) rows).flatten).Perm
        (rows.flatten ++ l) by
    simpa [assignRows] using h []
  induction l with
  | nil => intro rows; simp
  | cons it l2 ih =>
      intro rows
      simp only [List.foldl_cons]
      have hstep := ih (addItem tol it rows)
      have hmid := List.Perm.append_right l2 (flatten_addItem_perm tol it rows)
      have he : (rows.flatten ++ [it]) ++ l2 = rows.flatten ++ (it :: l2) := by simp
      rw [he] at hmid
      exact hstep.trans hmid

theorem matchesRow_zero_iff (it : Item) (a : Item) (rr : List Item) :
    matchesRow 0 it (a :: rr) = true ↔ it.y = a.y := by
  simp only [matchesRow, decide_eq_true_eq]
  constructor
  · intro h
    have := jsAbs_eq_zero (it.y - a.y) h
    linarith
  · intro h
    rw [h]
    simp [jsAbs_zero]

theorem addItem_zero_inv (it : Item) (rows : List (List Item))
    (hinv : ∀ r ∈ rows, r ≠ [] ∧ ∀ a ∈ r, a.y = rowAnchorY r)
    (hnd : (rows.map rowAnchorY).Nodup) :
    (∀ r ∈ addItem 0 it rows, r ≠ [] ∧ ∀ a ∈ r, a.y = rowAnchorY r) ∧
    ((addItem 0 it rows).map rowAnchorY).Nodup := by
  induction rows with
  | nil =>
      constructor
      · intro r hr
        simp only [addItem, List.mem_singleton] at hr
        subst hr
        exact ⟨by simp, by intro a ha; simp at ha; subst ha; rfl⟩
      · simp [addItem]
  | cons r rs ih =>
      have hr0 := hinv r (by simp)
      have hinv2 : ∀ r2 ∈ rs, r2 ≠ [] ∧ ∀ a ∈ r2, a.y = rowAnchorY r2 :=
        fun r2 h2 => hinv r2 (List.mem_cons_of_mem _ h2)
      have hnd2 : (rs.map rowAnchorY).Nodup := (List.nodup_cons.mp hnd).2
      have hanot : rowAnchorY r ∉ rs.map rowAnchorY := (List.nodup_cons.mp hnd).1
      obtain ⟨a, rr, rfl⟩ : ∃ a rr, r = a :: rr := by
        cases r with
        | nil => exact absurd rfl hr0.1
        | cons a rr => exact ⟨a, rr, rfl⟩
      by_cases hm : matchesRow 0 it (a :: rr)
      · have hay : it.y = a.y := (matchesRow_zero_iff it a rr).mp hm
        constructor
        · intro r2 h2
          simp only [addItem, if_pos hm, List.mem_cons] at h2
          rcases h2 with rfl | h2
          · refine ⟨by simp, ?_⟩
            intro b hb
            have hanc : rowAnchorY ((a :: rr) ++ [it]) = rowAnchorY (a :: rr) :=
              rowAnchorY_append _ it (by simp)
            rw [hanc]
            rcases List.mem_append.mp hb with hb | hb
            · exact hr0.2 b hb
            · simp only [List.mem_singleton] at hb
              subst hb
              exact hay
          · exact hinv2 r2 h2
        · simp only [addItem, if_pos hm, List.map_cons,
            rowAnchorY_append _ it (by simp : (a :: rr) ≠ [])]
          exact hnd
      · have hne : it.y ≠ a.y := by
          intro he
          exact hm ((matchesRow_zero_iff it a rr).mpr he)
        have ihr := ih hinv2 hnd2
        constructor
        · intro r2 h2
          simp only [addItem, if_neg hm, List.mem_cons] at h2
          rcases h2 with rfl | h2
          · exact hr0
          · exact ihr.1 r2 h2
        · simp only [addItem, if_neg hm, List.map_cons]
          refine List.Nodup.cons ?_ ihr.2
          intro hmem
          rcases anchors_addItem 0 it rs with h1 | h1
          · rw [h1] at hmem
            rcases List.mem_append.mp hmem with hmem | hmem
            · exact hanot hmem
            · simp only [List.mem_singleton] at hmem
              have : rowAnchorY (a :: rr) = a.y := rfl
              rw [this] at hmem
              exact hne (by rw [hmem])
          · rw [h1] at hmem
            exact hanot hmem

theorem assignRows_zero_inv (l : List Item) :
    (∀ r ∈ assignRows 0 l, r ≠ [] ∧ ∀ a ∈ r, a.y = rowAnchorY r) ∧
    ((assignRows 0 l).map rowAnchorY).Nodup := by
  suffices h : ∀ rows : List (List Item),
      (∀ r ∈ rows, r ≠ [] ∧ ∀ a ∈ r, a.y = rowAnchorY r) →
      (rows.map rowAnchorY).Nodup →
      (∀ r ∈ l.foldl (fun rows item => addItem 0 item rows) rows,
        r ≠ [] ∧ ∀ a ∈ r, a.y = rowAnchorY r) ∧
      ((l.foldl (fun rows item => addItem 0 item rows) rows).map rowAnchorY).Nodup by
    simpa [assignRows] using h [] (by simp) (by simp)
  induction l with
  | nil => intro rows h1 h2; exact ⟨h1, h2⟩
  | cons it l2 ih =>
      intro rows h1 h2
      simp only [List.foldl_cons]
      have step := addItem_zero_inv it rows h1 h2
      exact ih (addItem 0 it rows) step.1 step.2

theorem sortRowByX_perm (r : List Item) : (sortRowByX r).Perm r :=
  List.perm_insertionSort _ r

theorem sortByY_perm (l : List Item) : (sortByY l).Perm l :=
  List.perm_insertionSort _ l

/-- C6 counterexample: at tolerance `-1`, two fragments with bit-identical
projected Y (both `100`) do NOT share a row — the distance `0` is not
`≤ -1` — so the claim's exception for bit-identical Y values fails for
strictly negative tolerances. -/
theorem negative_tolerance_identicalY_counterexample :
    ({ str := "a", x := 0, y := 100, width := 10, height := 12 } : Item).y =
      ({ str := "b", x := 0, y := 100, width := 10, height := 12 } : Item).y ∧
    (groupTextItemsByRows (some (-1))
        [{ str := "a", x := 0, y := 100, width := 10, height := 12 },
         { str := "b", x := 0, y := 100, width := 10, height := 12 }]).length = 2 :=
  ⟨rfl, by with_unfolding_all decide⟩

/-- C6 amended: any nonpositive tolerance is accepted unvalidated by
`setCustomTolerance`; a strictly negative tolerance puts every fragment in
its own row even when Y values are bit-identical; tolerance exactly `0`
groups fragments exactly by bit-identical projected Y: rows are constant
in Y, and any two fragments with equal Y land in a common row. -/
theorem nonpositive_tolerance_fragmentation (tol : ℚ) (items : List Item)
    (htol : tol ≤ 0) :
    (∀ st : IndexerState, (setCustomTolerance st tol).customTolerance = some tol) ∧
    (tol < 0 →
      groupTextItemsByRows (some tol) items = (sortByY items).map (fun i => [i])) ∧
    (tol = 0 →
      (∀ r ∈ groupTextItemsByRows (some tol) items, ∀ a ∈ r, ∀ b ∈ r, a.y = b.y) ∧
      (∀ a ∈ items, ∀ b ∈ items, a.y = b.y →
        ∃ r ∈ groupTextItemsByRows (some tol) items, a ∈ r ∧ b ∈ r)) := by
  refine ⟨fun st => rfl, ?_, ?_⟩
  · intro hneg
    show (assignRows tol (sortByY items)).map sortRowByX = _
    rw [assignRows_neg tol hneg, List.map_map]
    have hfs : (sortRowByX ∘ fun i : Item => [i]) = fun i : Item => [i] :=
      funext (fun i => rfl)
    rw [hfs]
  · intro h0
    subst h0
    have hinv := assignRows_zero_inv (sortByY items)
    have hge : groupTextItemsByRows (some 0) items =
        (assignRows 0 (sortByY items)).map sortRowByX := rfl
    constructor
    · intro r2 hr2 a ha b hb
      rw [hge] at hr2
      obtain ⟨r, hr, rfl⟩ := List.mem_map.mp hr2
      have ha2 : a ∈ r := (sortRowByX_perm r).mem_iff.mp ha
      have hb2 : b ∈ r := (sortRowByX_perm r).mem_iff.mp hb
      have hall := (hinv.1 r hr).2
      rw [hall a ha2, hall b hb2]
    · intro a ha b hb hy
      have hsa : a ∈ (assignRows 0 (sortByY items)).flatten :=
        (flatten_assignRows_perm 0 (sortByY items)).mem_iff.mpr
          ((sortByY_perm items).mem_iff.mpr ha)
      have hsb : b ∈ (assignRows 0 (sortByY items)).flatten :=
        (flatten_assignRows_perm 0 (sortByY items)).mem_iff.mpr
          ((sortByY_perm items).mem_iff.mpr hb)
      obtain ⟨ra, hra, hamem⟩ := List.mem_flatten.mp hsa
      obtain ⟨rb, hrb, hbmem⟩ := List.mem_flatten.mp hsb
      have hya : a.y = rowAnchorY ra := (hinv.1 ra hra).2 a hamem
      have hyb : b.y = rowAnchorY rb := (hinv.1 rb hrb).2 b hbmem
      have heq : rowAnchorY ra = rowAnchorY rb := by
        rw [← hya, ← hyb, hy]
      have hrr : ra = rb := List.inj_on_of_nodup_map hinv.2 hra hrb heq
      subst hrr
      refine ⟨sortRowByX ra, ?_, ?_, ?_⟩
      · rw [hge]
        exact List.mem_map_of_mem sortRowByX hra
      · exact (sortRowByX_perm ra).mem_iff.mpr hamem
      · exact (sortRowByX_perm ra).mem_iff.mpr hbmem

theorem nonpositive_tolerance_fragmentation_witness :
    ((-1 : ℚ) ≤ 0) ∧
    ((∀ st : IndexerState,
        (setCustomTolerance st (-1)).customTolerance = some (-1)) ∧
     ((-1 : ℚ) < 0 →
       groupTextItemsByRows (some (-1)) ([] : List Item) =
         (sortByY []).map (fun i => [i])) ∧
     ((-1 : ℚ) = 0 →
       (∀ r ∈ groupTextItemsByRows (some (-1)) ([] : List Item),
         ∀ a ∈ r, ∀ b ∈ r, a.y = b.y) ∧
       (∀ a ∈ ([] : List Item), ∀ b ∈ ([] : List Item), a.y = b.y →
         ∃ r ∈ groupTextItemsByRows (some (-1)) ([] : List Item),
           a ∈ r ∧ b ∈ r))) :=
  ⟨by with_unfolding_all decide,
   nonpositive_tolerance_fragmentation (-1) [] (by with_unfolding_all decide)⟩

/-! ## Legacy vs current clusterer -/

theorem legacy_group_eq_assign (items : List Item) :
    Legacy.groupTextItemsByRows items =
      (assignRows (Legacy.tolerance (Legacy.sortByYDesc items))
        (Legacy.sortByYDesc items)).map sortRowByX := rfl

theorem pairwise_of_mem_rel {α : Type} (R : α → α → Prop) (l : List α)
    (h : ∀ a ∈ l, ∀ b ∈ l, R a b) : l.Pairwise R := by
  induction l with
  | nil => exact List.Pairwise.nil
  | cons x xs ih =>
      refine List.Pairwise.cons ?_ (ih ?_)
      · intro b hb
        exact h x (by simp) b (by simp [hb])
      · intro a ha b hb
        exact h a (by simp [ha]) b (by simp [hb])

theorem effectiveTolerance_none_nonneg (l : List Item) :
    0 ≤ effectiveTolerance none l := by
  have key : ∀ x : ℚ, 0 ≤ jsMax 1 x := by
    intro x
    unfold jsMax
    split
    · linarith
    · norm_num
  exact key _

theorem legacy_tolerance_nonneg (l : List Item) : 0 ≤ Legacy.tolerance l := by
  have key : ∀ x : ℚ, 0 ≤ x → 0 ≤ jsMin 1 (x * (1 / 10)) := by
    intro x hx
    unfold jsMin
    split
    · norm_num
    · linarith
  refine key _ ?_
  split
  · dsimp only
    split
    · refine div_nonneg ?_ (Nat.cast_nonneg _)
      refine List.sum_nonneg ?_
      intro x hx
      have hmem := List.mem_filter.mp hx
      have hlt : (0:ℚ) < x := by simpa using hmem.2
      linarith
    · norm_num
  · exact le_refl 0

theorem foldl_addItem_constant_y (tol : ℚ) (htol : 0 ≤ tol) (c : ℚ) :
    ∀ (l2 acc : List Item), acc ≠ [] → (∀ a ∈ acc, a.y = c) →
      (∀ a ∈ l2, a.y = c) →
      l2.foldl (fun rows item => addItem tol item rows) [acc] = [acc ++ l2] := by
  intro l2
  induction l2 with
  | nil => intro acc h1 h2 h3; simp
  | cons it l3 ih =>
      intro acc h1 h2 h3
      have hm : matchesRow tol it acc = true := by
        obtain ⟨a, rr, rfl⟩ : ∃ a rr, acc = a :: rr := by
          cases acc with
          | nil => exact absurd rfl h1
          | cons a rr => exact ⟨a, rr, rfl⟩
        simp only [matchesRow, decide_eq_true_eq]
        rw [h3 it (by simp), h2 a (by simp)]
        simpa [jsAbs, sub_self] using htol
      have hacc2 : ∀ a ∈ acc ++ [it], a.y = c := by
        intro a ha
        rcases List.mem_append.mp ha with ha | ha
        · exact h2 a ha
        · simp only [List.mem_singleton] at ha
          subst ha
          exact h3 a (by simp)
      have hl3 : ∀ a ∈ l3, a.y = c :=
        fun a ha => h3 a (List.mem_cons_of_mem it ha)
      simp only [List.foldl_cons]
      have haddeq : addItem tol it [acc] = [acc ++ [it]] := by
        simp [addItem, hm]
      rw [haddeq, ih (acc ++ [it]) (by simp) hacc2 hl3]
      simp

theorem assignRows_constant_y (tol : ℚ) (htol : 0 ≤ tol) (c : ℚ)
    (i0 : Item) (rest : List Item) (h : ∀ a ∈ i0 :: rest, a.y = c) :
    assignRows tol (i0 :: rest) = [i0 :: rest] := by
  show (i0 :: rest).foldl (fun rows item => addItem tol item rows) [] = [i0 :: rest]
  simp only [List.foldl_cons]
  rw [show addItem tol i0 [] = [[i0]] from rfl]
  rw [foldl_addItem_constant_y tol htol c rest [i0] (by simp)
    (by intro a ha; simp only [List.mem_singleton] at ha; subst ha; exact h a (by simp))
    (fun a ha => h a (List.mem_cons_of_mem i0 ha))]
  rfl

/-- C10 amended: the legacy and current clusterers agree whenever all
fragments share one projected Y (both then return the one row, X-sorted);
in general they differ — the legacy version uses tolerance
`min(1, 0.1·avgHeight)` instead of `max(1, 0.1·avgHeight)` and processes
fragments in descending instead of ascending projected Y, never re-sorting
the rows (see the counterexample). -/
theorem legacy_current_agree_constant_y (items : List Item) (c : ℚ)
    (h : ∀ i ∈ items, i.y = c) :
    Legacy.groupTextItemsByRows items = groupTextItemsByRows none items := by
  have hasc : List.Pairwise (fun a b : Item => a.y ≤ b.y) items :=
    pairwise_of_mem_rel _ items (fun a ha b hb => by rw [h a ha, h b hb])
  have hdesc : List.Pairwise (fun a b : Item => b.y ≤ a.y) items :=
    pairwise_of_mem_rel _ items (fun a ha b hb => by rw [h a ha, h b hb])
  have hs1 : sortByY items = items := List.Sorted.insertionSort_eq hasc
  have hs2 : Legacy.sortByYDesc items = items := List.Sorted.insertionSort_eq hdesc
  cases items with
  | nil => rfl
  | cons i0 rest =>
      rw [legacy_group_eq_assign, group_eq_assign, hs1, hs2]
      rw [assignRows_constant_y (Legacy.tolerance (i0 :: rest))
          (legacy_tolerance_nonneg _) c i0 rest h,
        assignRows_constant_y (effectiveTolerance none (i0 :: rest))
          (effectiveTolerance_none_nonneg _) c i0 rest h]

theorem legacy_current_agree_constant_y_witness :
    (∀ i ∈ [({ str := "a", x := 3, y := 100, width := 10, height := 12 } : Item),
            ({ str := "b", x := 0, y := 100, width := 10, height := 12 } : Item)],
      i.y = 100) ∧
    Legacy.groupTextItemsByRows
        [{ str := "a", x := 3, y := 100, width := 10, height := 12 },
         { str := "b", x := 0, y := 100, width := 10, height := 12 }] =
      groupTextItemsByRows none
        [{ str := "a", x := 3, y := 100, width := 10, height := 12 },
         { str := "b", x := 0, y := 100, width := 10, height := 12 }] :=
  ⟨by with_unfolding_all decide,
   legacy_current_agree_constant_y
     [{ str := "a", x := 3, y := 100, width := 10, height := 12 },
      { str := "b", x := 0, y := 100, width := 10, height := 12 }] 100
     (by with_unfolding_all decide)⟩

/-- C10 counterexample: two fragments at Y `0` and `0.75`, both of height
`5` (mean height `5`).  The legacy tolerance is `min(1, 0.5) = 0.5`, so the
fragments split into two rows; the current default tolerance is
`max(1, 0.5) = 1`, so they merge into one row — the partitions differ. -/
theorem legacy_current_clusterers_differ :
    (Legacy.groupTextItemsByRows
        [{ str := "a", x := 0, y := 0, width := 10, height := 5 },
         { str := "b", x := 0, y := 3 / 4, width := 10, height := 5 }]).length = 2 ∧
    (groupTextItemsByRows none
        [{ str := "a", x := 0, y := 0, width := 10, height := 5 },
         { str := "b", x := 0, y := 3 / 4, width := 10, height := 5 }]).length = 1 := by
  constructor
  · with_unfolding_all decide
  · with_unfolding_all decide
